import Mathlib

/-!
# Private Liquid Staking — verification of the spec against the code

Shallow embedding of the repository's hard core:

* the confidential reward oracle (`iapp/src/app.js`): the reward formula,
  the bulk reward action, and the commitment-verification predicate;
* the on-chain staking ledger (`contracts/src/PrivateStaking.sol`): the
  commitment store, stake/unstake, and the signature-gated reward claim,
  modelled as an explicit state machine over `ContractState`;
* the frontend confidential-compute client (`frontend/src/lib/iexec.js`):
  the remote-TEE calls with their local mock fallbacks.

Modelling conventions, used throughout and noted again at each definition:

* `keccak256` over an injectively encoded tuple is modelled by the tuple
  itself (structures `Commitment`, `ClaimMsg`): the spec takes the hash to
  be collision-free by construction, so a collision-free pairing is the
  faithful idealization.  Where the byte-level encoding itself is the
  subject (the bit-for-bit agreement of the on-chain and off-chain
  commitment hash), the packed byte strings are modelled explicitly and
  the hash is an arbitrary function of the bytes.
* `ecrecover` is modelled ideally: recovering a signature against the
  message it signs yields the signer; recovering it against any other
  message yields a junk value outside the 160-bit address space (a real
  recovery yields an unpredictable address, coinciding with no configured
  key); recovering bytes that are not a signature yields address `0`,
  exactly as `ecrecover` returns the zero address on failure.
* Solidity `uint256` checked arithmetic is `Nat` with explicit revert
  guards at `2 ^ 256`; a reverted call returns `Except.error` and, as on
  chain, leaves no new state.
* JavaScript numbers in the oracle are modelled as exact integers
  (`Int`/`Nat`), with `Math.floor` of a quotient as floor division.
-/

namespace PLSVerify

/-! ## Confidential reward oracle — `iapp/src/app.js`

`calculateRewards(stakeData, currentTimestamp, baseAPY)` destructures
`{amount, stakeTimestamp, userAddress}`, sets
`timeStaked = currentTimestamp - stakeTimestamp`, and computes
`Math.floor(amount * baseAPY * timeStaked / (10000 * SECONDS_PER_YEAR))`.
`amount` and `baseAPY` are nonnegative quantities; `timeStaked` may be
negative (the code does not validate timestamp ordering). -/

/-- `SECONDS_PER_YEAR = 365 * 24 * 60 * 60` from `calculateRewards`. -/
def secondsPerYear : Nat := 365 * 24 * 60 * 60

/-- The oracle's reward arithmetic: `Math.floor((amount * baseAPY *
timeStaked) / (10000 * SECONDS_PER_YEAR))`, with the two timestamps as
supplied.  `Math.floor` of the real quotient of integers is floor
division, `Int.fdiv`. -/
def rewardFormula (amount : Nat) (stakeTimestamp currentTimestamp : Int)
    (baseAPY : Nat) : Int :=
  let timeStaked := currentTimestamp - stakeTimestamp
  Int.fdiv ((amount : Int) * (baseAPY : Int) * timeStaked)
    (10000 * (secondsPerYear : Int))

/-- The `stakeData` record the oracle destructures.  `userAddress` is the
raw JSON field: `some a` when it is a well-formed address, `none` when it
is a value `ethers` rejects (proof-hash encoding then throws). -/
structure StakeData where
  amount : Nat
  stakeTimestamp : Int
  userAddress : Option Nat
  deriving DecidableEq, Repr

/-- `calculateRewards` as a fallible computation: the arithmetic never
throws, but building the proof hash passes `userAddress` to
`ethers.AbiCoder.encode(['address', ...])`, which throws on a malformed
address.  The random proof nonce and the hash value itself are irrelevant
to the claims and are not carried. -/
def calculateRewards (d : StakeData) (currentTimestamp : Int)
    (baseAPY : Nat) : Except String Int :=
  match d.userAddress with
  | some _ => .ok (rewardFormula d.amount d.stakeTimestamp currentTimestamp baseAPY)
  | none => .error "invalid address"

/-- One element of the `bulk_calculate_rewards` input array.  A JSON
element is either an object (`entry`) — possibly with fields that make
`calculateRewards` throw — or `null` (`nullEntry`), on which the
destructuring inside `calculateRewards` throws *and* the `catch` handler's
own `stakeData.userAddress` access throws again. -/
inductive BulkEntry where
  | entry (d : StakeData)
  | nullEntry
  deriving DecidableEq, Repr

/-- Per-element outcome reported by the bulk action: `success` with the
element's reward, or `failure` with the caught error message. -/
inductive ItemResult where
  | success (userAddress : Option Nat) (rewards : Int)
  | failure (userAddress : Option Nat) (error : String)
  deriving DecidableEq, Repr

/-- Whether a per-element outcome is a success (`r.success` in the JS). -/
def ItemResult.isSuccess : ItemResult → Bool
  | .success _ _ => true
  | .failure _ _ => false

/-- The reward a per-element outcome carries (`0` for a failure; the JS
summary only reads `rewards` from successes). -/
def ItemResult.rewardOf : ItemResult → Int
  | .success _ r => r
  | .failure _ _ => 0

/-- Processing of one bulk element: the `try/catch` body of the `map`
callback.  An object entry always yields a reported outcome — the catch
handler turns a throw inside `calculateRewards` into a `failure` record.
A `null` entry makes the catch handler itself throw (`stakeData.userAddress`
on `null`), an uncaught exception: modelled as `Except.error`, which
aborts the enclosing `map`. -/
def processBulkEntry (e : BulkEntry) (currentTimestamp : Int)
    (baseAPY : Nat) : Except String ItemResult :=
  match e with
  | .nullEntry => .error "Cannot read properties of null"
  | .entry d =>
      match calculateRewards d currentTimestamp baseAPY with
      | .ok r => .ok (.success d.userAddress r)
      | .error msg => .ok (.failure d.userAddress msg)

/-- The summary object returned alongside the per-element list:
`{total, successful, failed, totalRewards}` with
`failed = stakesData.length - successCount` and `totalRewards` summed over
the successes. -/
structure BulkSummary where
  total : Nat
  successful : Nat
  failed : Nat
  totalRewards : Int
  deriving DecidableEq, Repr

/-- The value of the `bulk_calculate_rewards` action: the per-element
result list plus the summary. -/
structure BulkOutput where
  bulkResults : List ItemResult
  summary : BulkSummary
  deriving DecidableEq, Repr

/-- The `bulk_calculate_rewards` action over an already-parsed array:
map `processBulkEntry` over the elements (an uncaught throw aborts the
whole map, hence the `Except`), then assemble the summary exactly as the
source does. -/
def bulkCalculateRewards (entries : List BulkEntry) (currentTimestamp : Int)
    (baseAPY : Nat) : Except String BulkOutput := do
  let results ← entries.mapM (processBulkEntry · currentTimestamp baseAPY)
  let successCount := (results.filter (·.isSuccess)).length
  return { bulkResults := results
           summary :=
            { total := entries.length
              successful := successCount
              failed := entries.length - successCount
              totalRewards := ((results.filter (·.isSuccess)).map (·.rewardOf)).sum } }

/-! ## Commitment hash packing — byte-for-byte (`iapp/src/app.js` §
`verifyCommitment` vs. `PrivateStaking.stake`)

The off-chain predicate computes
`ethers.keccak256(ethers.solidityPacked(['uint256','bytes32','address'],
[amount, salt, userAddress]))`; the ledger computes
`keccak256(abi.encodePacked(amount, salt, msg.sender))` with the same
types.  Both packings are modelled down to the byte string; `keccak256`
itself is an arbitrary function of the bytes. -/

/-- Big-endian fixed-width byte encoding: `w` bytes of `x` (reduced to
`w`-byte width, as both packers do for their fixed-width types). -/
def beBytes (w : Nat) (x : Nat) : List Nat :=
  (List.range w).map fun i => x / 256 ^ (w - 1 - i) % 256

/-- The byte string `ethers.solidityPacked(['uint256','bytes32','address'],
[amount, salt, userAddress])` produces: 32 bytes of `amount`, 32 bytes of
`salt`, 20 bytes of `userAddress`, concatenated with no padding. -/
def solidityPackedCommitment (amount salt userAddress : Nat) : List Nat :=
  beBytes 32 amount ++ beBytes 32 salt ++ beBytes 20 userAddress

/-- The byte string Solidity's `abi.encodePacked(uint256 amount, bytes32
salt, address sender)` produces in `stake`/`unstake`: 32 bytes of
`amount`, 32 bytes of `salt`, 20 bytes of the address, concatenated with
no padding. -/
def abiEncodePackedCommitment (amount salt sender : Nat) : List Nat :=
  beBytes 32 amount ++ beBytes 32 salt ++ beBytes 20 sender

/-- The off-chain `verifyCommitment(commitment, revealData)`: recompute
the packed hash and compare with `===`.  Parameterized by the hash
function of the packed bytes; a pure function of its arguments. -/
def verifyCommitmentOffChain (keccak : List Nat → Nat)
    (commitment amount salt userAddress : Nat) : Bool :=
  commitment == keccak (solidityPackedCommitment amount salt userAddress)

/-- The commitment identifier `stake` computes on chain,
`keccak256(abi.encodePacked(amount, salt, msg.sender))`, for the same
hash function of the packed bytes. -/
def onChainCommitmentHash (keccak : List Nat → Nat)
    (amount salt sender : Nat) : Nat :=
  keccak (abiEncodePackedCommitment amount salt sender)

/-! ## The staking ledger — `contracts/src/PrivateStaking.sol`

State machine over `ContractState`.  Mappings are modelled as follows:
`stakeCommitments : mapping(bytes32 => bool)` as the list of commitments
whose flag is `true` (membership is the flag; `stake` never inserts a
duplicate, so the list stays duplicate-free along reachable states);
`userCommitments`, `nonces`, balances and allowances as functions updated
pointwise.  The commitment hash `keccak256(abi.encodePacked(amount, salt,
msg.sender))` is modelled as the injective triple itself (`Commitment`),
per the collision-freeness idealization. -/

/-- Account addresses.  Real addresses occupy `[0, 2 ^ 160)`; values at or
above `2 ^ 160` are used only as the junk output of a failed signature
recovery, which coincides with no real address. -/
abbrev Address := Nat

/-- `keccak256(abi.encodePacked(amount, salt, msg.sender))`, idealized as
the injective triple. -/
structure Commitment where
  amount : Nat
  salt : Nat
  owner : Address
  deriving DecidableEq, Repr

/-- The claim message `keccak256(abi.encodePacked(msg.sender, amount,
proofHash, nonces[msg.sender], block.chainid, address(this)))`, idealized
as the injective tuple.  The `"\x19Ethereum Signed Message:\n32"` wrapping
applied identically by the contract and by the oracle's
`wallet.signMessage` is a fixed bijection and is absorbed into the
modelled hash. -/
structure ClaimMsg where
  claimant : Address
  amount : Nat
  proofHash : Nat
  nonce : Nat
  chainId : Nat
  contractAddr : Address
  deriving DecidableEq, Repr

/-- A 65-byte signature blob: either a real ECDSA signature produced by
`signer` over the (prefixed) message `m`, or 65 bytes that are not a valid
signature at all (for which `ecrecover` returns the zero address). -/
inductive Sig where
  | made (signer : Address) (m : ClaimMsg)
  | garbage (junk : Nat)
  deriving DecidableEq, Repr

/-- The unpredictable address `ecrecover` yields when a real signature is
checked against a different message: modelled as a junk value outside the
160-bit address space, so it coincides with no configured oracle key — the
idealization of forgery being infeasible. -/
def mismatchAddress (signer : Address) (_m _h : ClaimMsg) : Address :=
  2 ^ 160 + signer

/-- `_recoverSigner` (via `ecrecover`): the signer when the signature
matches the message, junk outside the address space on a mismatched real
signature, and the zero address on bytes that are not a signature —
`ecrecover`'s failure value, which `claimRewards` never filters out. -/
def recoverSigner (h : ClaimMsg) : Sig → Address
  | .made signer m => if m = h then signer else mismatchAddress signer m h
  | .garbage _ => 0

/-- The full ledger state: `PrivateStaking`'s storage plus the balances of
the two collaborating token contracts (the staking asset held by users and
by the ledger itself, its per-user allowance granted to the ledger, and
the PLS receipt token). -/
structure ContractState where
  owner : Address
  teeOracle : Address
  totalStaked : Nat
  stakeCommitments : List Commitment
  userCommitments : Address → List Commitment
  claimedRewards : List Nat
  nonces : Address → Nat
  assetBalances : Address → Nat
  assetAllowances : Address → Nat
  contractAssetBalance : Nat
  plsBalances : Address → Nat
  plsTotalSupply : Nat
  chainId : Nat
  selfAddr : Address

/-- Revert reasons: the contract's custom errors plus the external-token
and checked-arithmetic reverts the calls propagate. -/
inductive Err where
  | ZeroAmount
  | CommitmentAlreadyExists
  | CommitmentNotFound
  | AlreadyClaimed
  | InvalidSignature
  | NotOwner
  | AssetTransferFailed
  | PLSBurnFailed
  | ArithmeticOverflow
  deriving DecidableEq, Repr

/-- `2 ^ 256`: the bound at which Solidity 0.8 checked addition reverts. -/
def uint256Bound : Nat := 2 ^ 256

/-- `setTEEOracle(_teeOracle)`: `onlyOwner`, then assigns the slot. -/
def setTEEOracle (s : ContractState) (caller newOracle : Address) :
    Except Err ContractState :=
  if caller ≠ s.owner then .error .NotOwner
  else .ok { s with teeOracle := newOracle }

/-- ERC-20 `approve(stakingLedger, amount)` on the staking asset by
`caller`: sets the allowance the ledger may pull.  Always succeeds. -/
def approveAsset (s : ContractState) (caller : Address) (amount : Nat) :
    ContractState :=
  { s with assetAllowances := fun a =>
      if a = caller then amount else s.assetAllowances a }

/-- `stake(amount, salt)` by `caller`: reject zero amount; compute the
commitment; reject a duplicate; pull `amount` of the asset from the caller
(insufficient balance or allowance reverts in the token); record the
commitment, append it to the caller's array, add to `totalStaked` (checked),
and mint `amount` of PLS (checked supply).  Returns the commitment. -/
def stake (s : ContractState) (caller : Address) (amount salt : Nat) :
    Except Err (ContractState × Commitment) :=
  if amount = 0 then .error .ZeroAmount
  else
    let c : Commitment := ⟨amount, salt, caller⟩
    if c ∈ s.stakeCommitments then .error .CommitmentAlreadyExists
    else if s.assetBalances caller < amount ∨ s.assetAllowances caller < amount then
      .error .AssetTransferFailed
    else if uint256Bound ≤ s.totalStaked + amount then .error .ArithmeticOverflow
    else if uint256Bound ≤ s.plsTotalSupply + amount then .error .ArithmeticOverflow
    else .ok
      ({ s with
          assetBalances := fun a =>
            if a = caller then s.assetBalances caller - amount else s.assetBalances a
          assetAllowances := fun a =>
            if a = caller then s.assetAllowances caller - amount else s.assetAllowances a
          contractAssetBalance := s.contractAssetBalance + amount
          stakeCommitments := c :: s.stakeCommitments
          userCommitments := fun a =>
            if a = caller then s.userCommitments caller ++ [c] else s.userCommitments a
          totalStaked := s.totalStaked + amount
          plsBalances := fun a =>
            if a = caller then s.plsBalances caller + amount else s.plsBalances a
          plsTotalSupply := s.plsTotalSupply + amount }, c)

/-- Index of the first occurrence of `c` — the loop counter at which
`_removeCommitment`'s scan hits its match. -/
def firstIdx : List Commitment → Commitment → Nat
  | [], _ => 0
  | x :: xs, c => if x = c then 0 else firstIdx xs c + 1

/-- `_removeCommitment`'s swap-and-pop on one owner's array: overwrite the
first occurrence of `c` with the last element, then pop.  If `c` is not in
the array the loop falls through and the array is unchanged. -/
def swapPopRemove (l : List Commitment) (c : Commitment) : List Commitment :=
  match l.getLast? with
  | some b => if c ∈ l then (l.set (firstIdx l c) b).dropLast else l
  | none => l

/-- `unstake(amount, salt)` by `caller`: recompute the commitment; reject
if absent; clear the flag and swap-and-pop it from the caller's array;
burn `amount` of PLS from the caller (insufficient balance reverts);
subtract from `totalStaked` (checked); transfer `amount` of the asset back
(insufficient ledger balance reverts in the token). -/
def unstake (s : ContractState) (caller : Address) (amount salt : Nat) :
    Except Err ContractState :=
  let c : Commitment := ⟨amount, salt, caller⟩
  if c ∉ s.stakeCommitments then .error .CommitmentNotFound
  else if s.plsBalances caller < amount then .error .PLSBurnFailed
  else if s.totalStaked < amount then .error .ArithmeticOverflow
  else if s.contractAssetBalance < amount then .error .AssetTransferFailed
  else .ok
    { s with
        stakeCommitments := s.stakeCommitments.erase c
        userCommitments := fun a =>
          if a = caller then swapPopRemove (s.userCommitments caller) c
          else s.userCommitments a
        plsBalances := fun a =>
          if a = caller then s.plsBalances caller - amount else s.plsBalances a
        plsTotalSupply := s.plsTotalSupply - amount
        totalStaked := s.totalStaked - amount
        contractAssetBalance := s.contractAssetBalance - amount
        assetBalances := fun a =>
          if a = caller then s.assetBalances caller + amount else s.assetBalances a }

/-- `claimRewards(amount, proofHash, signature)` by `caller`: reject an
already-claimed proof; rebuild the claim message over the caller's
*current* nonce, chain id and ledger address; recover the signer and
reject unless it equals the configured oracle (note: no check that the
recovered address is nonzero); then mark the proof claimed, bump the
caller's nonce, and mint `amount` of PLS (checked supply). -/
def claimRewards (s : ContractState) (caller : Address) (amount proofHash : Nat)
    (signature : Sig) : Except Err ContractState :=
  if proofHash ∈ s.claimedRewards then .error .AlreadyClaimed
  else
    let m : ClaimMsg :=
      ⟨caller, amount, proofHash, s.nonces caller, s.chainId, s.selfAddr⟩
    if recoverSigner m signature ≠ s.teeOracle then .error .InvalidSignature
    else if uint256Bound ≤ s.plsTotalSupply + amount then .error .ArithmeticOverflow
    else .ok
      { s with
          claimedRewards := proofHash :: s.claimedRewards
          nonces := fun a =>
            if a = caller then s.nonces caller + 1 else s.nonces a
          plsBalances := fun a =>
            if a = caller then s.plsBalances caller + amount else s.plsBalances a
          plsTotalSupply := s.plsTotalSupply + amount }

/-- One successful externally-invoked transition of the ledger: a stake,
an unstake, a reward claim, an oracle rotation by the owner, or an asset
approval (the step that enables stakes; it touches only the allowance). -/
inductive Step : ContractState → ContractState → Prop
  | stake (s s' : ContractState) (caller : Address) (amount salt : Nat)
      (c : Commitment) (h : stake s caller amount salt = .ok (s', c)) : Step s s'
  | unstake (s s' : ContractState) (caller : Address) (amount salt : Nat)
      (h : unstake s caller amount salt = .ok s') : Step s s'
  | claim (s s' : ContractState) (caller : Address) (amount proofHash : Nat)
      (signature : Sig) (h : claimRewards s caller amount proofHash signature = .ok s') :
      Step s s'
  | setOracle (s s' : ContractState) (caller newOracle : Address)
      (h : setTEEOracle s caller newOracle = .ok s') : Step s s'
  | approve (s : ContractState) (caller : Address) (amount : Nat) :
      Step s (approveAsset s caller amount)

/-- The state right after deployment: the constructor leaves `teeOracle`
at its zero default, all ledger storage empty, and no PLS minted; users
may hold arbitrary balances of (and have granted arbitrary allowances on)
the external staking asset. -/
def initState (deployer : Address) (chainId selfAddr : Nat)
    (bal alw : Address → Nat) : ContractState :=
  { owner := deployer
    teeOracle := 0
    totalStaked := 0
    stakeCommitments := []
    userCommitments := fun _ => []
    claimedRewards := []
    nonces := fun _ => 0
    assetBalances := bal
    assetAllowances := alw
    contractAssetBalance := 0
    plsBalances := fun _ => 0
    plsTotalSupply := 0
    chainId := chainId
    selfAddr := selfAddr }

/-- Reachability by any finite sequence of successful operations. -/
def Reachable (s0 s : ContractState) : Prop :=
  Relation.ReflTransGen Step s0 s

/-- The ledger bookkeeping invariant: `totalStaked` is the sum of the
amounts under the present commitments; the present set is duplicate-free;
and each commitment occurs in a user's array exactly once if it is present
and that user is its owner, and zero times otherwise. -/
def Inv (s : ContractState) : Prop :=
  s.totalStaked = (s.stakeCommitments.map Commitment.amount).sum ∧
  s.stakeCommitments.Nodup ∧
  ∀ (c : Commitment) (a : Address),
    (s.userCommitments a).count c =
      if c ∈ s.stakeCommitments ∧ a = c.owner then 1 else 0

/-! ## The frontend confidential-compute client — `frontend/src/lib/iexec.js`

Each exported operation submits a task to the remote TEE host and, on
misconfiguration (`iappAddress` unset) or any remote failure, substitutes
a local result.  The remote round-trip (protect data, run task, fetch) is
modelled by its outcome alone, `Remote`. -/

/-- Outcome of the remote TEE round-trip: the parsed result, or a thrown
error anywhere along protect/process/fetch. -/
inductive Remote (α : Type) where
  | ok (value : α)
  | failed
  deriving DecidableEq, Repr

/-- What `calculateRewardsInTEE` resolves to: the reward plus the
`isMock` flag the code attaches. -/
structure TEERewardResult where
  rewards : Int
  isMock : Bool
  deriving DecidableEq, Repr

/-- The frontend's `stakeData` argument (its `userAddress` plays no role
in the reward arithmetic the mock performs). -/
structure FStakeData where
  amount : Nat
  stakeTimestamp : Int
  deriving DecidableEq, Repr

/-- `mockTEEComputation(stakeData, baseAPY)`: the local fallback — same
reward formula, result flagged `isMock: true`. -/
def mockTEEComputation (d : FStakeData) (now : Int) (baseAPY : Nat) :
    TEERewardResult :=
  { rewards := rewardFormula d.amount d.stakeTimestamp now baseAPY
    isMock := true }

/-- `calculateRewardsInTEE`: if the iApp is unconfigured, throw when
`forceRealTEE` is set, otherwise return the mock (flagged); on a
successful remote task return the remote reward flagged `isMock: false`;
on a remote failure, throw under `forceRealTEE`, otherwise return the
mock (flagged). -/
def calculateRewardsInTEE (forceRealTEE configured : Bool)
    (remote : Remote Int) (d : FStakeData) (now : Int) (baseAPY : Nat) :
    Except String TEERewardResult :=
  if !configured then
    if forceRealTEE then .error "iApp address not configured"
    else .ok (mockTEEComputation d now baseAPY)
  else
    match remote with
    | .ok r => .ok { rewards := r, isMock := false }
    | .failed =>
        if forceRealTEE then .error "TEE computation failed"
        else .ok (mockTEEComputation d now baseAPY)

/-- `verifyCommitmentInTEE`: returns the remote verdict; but when the iApp
is unconfigured, or the remote task fails, returns plain `true` — a bare
boolean carrying no indication that verification was skipped. -/
def verifyCommitmentInTEE (configured : Bool) (remote : Remote Bool) : Bool :=
  if !configured then true
  else
    match remote with
    | .ok v => v
    | .failed => true

/-- What `bulkCalculateRewardsInTEE` resolves to: per-element results and
summary as computed (remotely or by the mock) plus the `isMock` flag. -/
structure TEEBulkResult where
  output : BulkOutput
  isMock : Bool
  deriving DecidableEq, Repr

/-- `mockBulkTEEComputation(stakesData, baseAPY)`: local per-element
computation of the same formula, every element reported successful, the
whole result flagged `isMock: true`. -/
def mockBulkTEEComputation (ds : List FStakeData) (now : Int) (baseAPY : Nat) :
    TEEBulkResult :=
  let results := ds.map fun d =>
    ItemResult.success none (rewardFormula d.amount d.stakeTimestamp now baseAPY)
  { output :=
      { bulkResults := results
        summary :=
          { total := ds.length
            successful := ds.length
            failed := 0
            totalRewards := (results.map (·.rewardOf)).sum } }
    isMock := true }

/-- `bulkCalculateRewardsInTEE`: same shape as the single-stake call —
remote result flagged `isMock: false`, fallback to the flagged mock unless
`forceRealTEE` turns the failure into a throw. -/
def bulkCalculateRewardsInTEE (forceRealTEE configured : Bool)
    (remote : Remote BulkOutput) (ds : List FStakeData) (now : Int)
    (baseAPY : Nat) : Except String TEEBulkResult :=
  if !configured then
    if forceRealTEE then .error "iApp address not configured"
    else .ok (mockBulkTEEComputation ds now baseAPY)
  else
    match remote with
    | .ok out => .ok { output := out, isMock := false }
    | .failed =>
        if forceRealTEE then .error "Bulk TEE computation failed"
        else .ok (mockBulkTEEComputation ds now baseAPY)

/-- What `generateAggregateProofInTEE` resolves to. -/
structure AggregateResult where
  totalAmount : Nat
  commitmentsHash : Nat
  stakeCount : Nat
  deriving DecidableEq, Repr

/-- `generateAggregateProofInTEE`: the remote aggregate, but on
misconfiguration or failure a zero aggregate
`{totalAmount: '0', commitmentsHash: 0x00…, stakeCount: 0}` with no
indication that it was substituted. -/
def generateAggregateProofInTEE (configured : Bool)
    (remote : Remote AggregateResult) : AggregateResult :=
  if !configured then ⟨0, 0, 0⟩
  else
    match remote with
    | .ok r => r
    | .failed => ⟨0, 0, 0⟩

/-! ## Inversion of the ledger operations -/

/-- Everything a successful `stake` forces: the guards that must have
passed and the exact post-state. -/
theorem stake_ok_elim {s s' : ContractState} {caller : Address}
    {amount salt : Nat} {c : Commitment}
    (h : stake s caller amount salt = .ok (s', c)) :
    amount ≠ 0 ∧
    (⟨amount, salt, caller⟩ : Commitment) ∉ s.stakeCommitments ∧
    amount ≤ s.assetBalances caller ∧ amount ≤ s.assetAllowances caller ∧
    s.totalStaked + amount < uint256Bound ∧
    s.plsTotalSupply + amount < uint256Bound ∧
    c = ⟨amount, salt, caller⟩ ∧
    s' = { s with
        assetBalances := fun a =>
          if a = caller then s.assetBalances caller - amount else s.assetBalances a
        assetAllowances := fun a =>
          if a = caller then s.assetAllowances caller - amount else s.assetAllowances a
        contractAssetBalance := s.contractAssetBalance + amount
        stakeCommitments := ⟨amount, salt, caller⟩ :: s.stakeCommitments
        userCommitments := fun a =>
          if a = caller then s.userCommitments caller ++ [⟨amount, salt, caller⟩]
          else s.userCommitments a
        totalStaked := s.totalStaked + amount
        plsBalances := fun a =>
          if a = caller then s.plsBalances caller + amount else s.plsBalances a
        plsTotalSupply := s.plsTotalSupply + amount } := by
  simp only [stake] at h
  split_ifs at h with h1 h2 h3 h4 h5
  · simp only [Except.ok.injEq, Prod.mk.injEq] at h
    push_neg at h3
    exact ⟨h1, h2, h3.1, h3.2, lt_of_not_le h4,
      lt_of_not_le h5, h.2.symm, h.1.symm⟩

/-- Everything a successful `unstake` forces. -/
theorem unstake_ok_elim {s s' : ContractState} {caller : Address}
    {amount salt : Nat}
    (h : unstake s caller amount salt = .ok s') :
    (⟨amount, salt, caller⟩ : Commitment) ∈ s.stakeCommitments ∧
    amount ≤ s.plsBalances caller ∧ amount ≤ s.totalStaked ∧
    amount ≤ s.contractAssetBalance ∧
    s' = { s with
        stakeCommitments := s.stakeCommitments.erase ⟨amount, salt, caller⟩
        userCommitments := fun a =>
          if a = caller then swapPopRemove (s.userCommitments caller) ⟨amount, salt, caller⟩
          else s.userCommitments a
        plsBalances := fun a =>
          if a = caller then s.plsBalances caller - amount else s.plsBalances a
        plsTotalSupply := s.plsTotalSupply - amount
        totalStaked := s.totalStaked - amount
        contractAssetBalance := s.contractAssetBalance - amount
        assetBalances := fun a =>
          if a = caller then s.assetBalances caller + amount else s.assetBalances a } := by
  simp only [unstake] at h
  split_ifs at h with h1 h2 h3 h4
  · simp only [Except.ok.injEq] at h
    exact ⟨h1, le_of_not_lt h2, le_of_not_lt h3, le_of_not_lt h4, h.symm⟩

/-- Everything a successful `claimRewards` forces. -/
theorem claimRewards_ok_elim {s s' : ContractState} {caller : Address}
    {amount proofHash : Nat} {signature : Sig}
    (h : claimRewards s caller amount proofHash signature = .ok s') :
    proofHash ∉ s.claimedRewards ∧
    recoverSigner ⟨caller, amount, proofHash, s.nonces caller, s.chainId, s.selfAddr⟩
      signature = s.teeOracle ∧
    s.plsTotalSupply + amount < uint256Bound ∧
    s' = { s with
        claimedRewards := proofHash :: s.claimedRewards
        nonces := fun a =>
          if a = caller then s.nonces caller + 1 else s.nonces a
        plsBalances := fun a =>
          if a = caller then s.plsBalances caller + amount else s.plsBalances a
        plsTotalSupply := s.plsTotalSupply + amount } := by
  simp only [claimRewards] at h
  split_ifs at h with h1 h2 h3
  · simp only [Except.ok.injEq] at h
    exact ⟨h1, not_not.mp h2, lt_of_not_le h3, h.symm⟩

/-- Everything a successful `setTEEOracle` forces. -/
theorem setTEEOracle_ok_elim {s s' : ContractState} {caller newOracle : Address}
    (h : setTEEOracle s caller newOracle = .ok s') :
    caller = s.owner ∧ s' = { s with teeOracle := newOracle } := by
  simp only [setTEEOracle] at h
  split_ifs at h with h1
  · simp only [Except.ok.injEq] at h
    exact ⟨not_not.mp h1, h.symm⟩

/-! ## Claim theorems -/

/-- C7: the off-chain `verifyCommitment` agrees bit-for-bit with the
on-chain commitment of `stake`: for every hash function of the packed
bytes (both sides pack `(uint256 amount, bytes32 salt, address owner)`
identically), the predicate accepts exactly the on-chain commitment
value.  Both sides are pure functions of their arguments. -/
theorem verifyCommitment_agrees_with_onchain :
    ∀ (keccak : List Nat → Nat) (commitment amount salt owner : Nat),
      verifyCommitmentOffChain keccak commitment amount salt owner = true ↔
        commitment = onChainCommitmentHash keccak amount salt owner := by
  intro keccak commitment amount salt owner
  simp [verifyCommitmentOffChain, onChainCommitmentHash,
    solidityPackedCommitment, abiEncodePackedCommitment]

/-- C6: the oracle's reward computation is exactly
`floor(amount * baseAPY * timeStaked / (10000 * secondsPerYear))` with
`secondsPerYear = 365*24*60*60` and `timeStaked = currentTimestamp -
stakeTimestamp`; the cited instance evaluates to exactly `52_000`; and a
negative `timeStaked` yields a nonpositive reward.  (JavaScript numbers
are modelled as exact integers, `Math.floor` of the quotient as floor
division; the cited instance is exactly representable in doubles, so the
idealization agrees with the source on it.) -/
theorem reward_computation_spec :
    (∀ (amount : Nat) (stakeTs currentTs : Int) (baseAPY : Nat),
        rewardFormula amount stakeTs currentTs baseAPY =
          Int.fdiv ((amount : Int) * (baseAPY : Int) * (currentTs - stakeTs))
            (10000 * ((365 * 24 * 60 * 60 : Nat) : Int))) ∧
    rewardFormula 1000000 0 31536000 520 = 52000 ∧
    (∀ (amount : Nat) (stakeTs currentTs : Int) (baseAPY : Nat),
        currentTs - stakeTs < 0 →
        rewardFormula amount stakeTs currentTs baseAPY ≤ 0) := by
  refine ⟨fun _ _ _ _ => rfl, by decide, fun amount stakeTs currentTs baseAPY ht => ?_⟩
  have hden : (0 : Int) < 10000 * (secondsPerYear : Int) := by
    simp [secondsPerYear]
  have hnum : (amount : Int) * (baseAPY : Int) * (currentTs - stakeTs) ≤ 0 := by
    have hpos : (0 : Int) ≤ (amount : Int) * (baseAPY : Int) := by positivity
    exact mul_nonpos_iff.mpr (Or.inl ⟨hpos, ht.le⟩)
  show Int.fdiv _ _ ≤ 0
  rw [Int.fdiv_eq_ediv _ hden.le]
  calc (amount : Int) * (baseAPY : Int) * (currentTs - stakeTs) /
        (10000 * (secondsPerYear : Int))
      ≤ 0 / (10000 * (secondsPerYear : Int)) := Int.ediv_le_ediv hden hnum
    _ = 0 := Int.zero_ediv _

/-- Witness for C6's hypothesized part at a concrete input: staking
"until" a timestamp before the stake yields a nonpositive reward. -/
theorem reward_computation_spec_witness :
    (0 : Int) - 100 < 0 ∧ rewardFormula 1000000 100 0 520 ≤ 0 :=
  ⟨by decide, reward_computation_spec.2.2 1000000 100 0 520 (by decide)⟩

/-- A deployed ledger whose oracle slot still holds its zero default. -/
def unconfiguredLedger : ContractState :=
  initState 9 421614 77 (fun _ => 0) (fun _ => 0)

/-- C1 (refuted — the code is buggy): with the oracle slot at its unset
zero default, `claimRewards` does NOT reject all inputs.  `ecrecover`
returns the zero address on a malformed 65-byte signature (for example
`r = s = 0`), `_recoverSigner` never filters that failure value out, and
`signer == teeOracle` then compares `0 == 0`: the call passes the
signature check and mints the requested amount.  Evaluated here at the
concrete failing input: claimant `1`, amount `1000`, proof hash `42`,
garbage signature — the claim succeeds and credits 1000 PLS. -/
theorem unset_oracle_claim_succeeds :
    (claimRewards unconfiguredLedger 1 1000 42 (Sig.garbage 0)).map
        (fun s => s.plsBalances 1) = .ok 1000 ∧
    unconfiguredLedger.teeOracle = 0 := ⟨rfl, rfl⟩

/-- C5: immediately after a successful `stake(amount, salt)`, repeating
the same `stake(amount, salt)` from the same caller fails with the
duplicate-commitment error (`CommitmentAlreadyExists`); the revert leaves
no new state. -/
theorem stake_duplicate_commitment_fails :
    ∀ (s s1 : ContractState) (caller : Address) (amount salt : Nat)
      (c : Commitment),
      stake s caller amount salt = .ok (s1, c) →
      stake s1 caller amount salt = .error .CommitmentAlreadyExists := by
  intro s s1 caller amount salt c h
  obtain ⟨h0, _, _, _, _, _, _, hs1⟩ := stake_ok_elim h
  subst hs1
  simp [stake, h0]

/-- Witness for C5 at a concrete input: stake 40 with salt 3, then the
identical stake fails with the duplicate-commitment error. -/
def c5Ledger : ContractState := initState 1 5 7 (fun _ => 100) (fun _ => 100)

/-- The state and commitment produced by the first stake of the C5
witness scenario. -/
def c5AfterStake : ContractState × Commitment :=
  match stake c5Ledger 1 40 3 with
  | .ok p => p
  | .error _ => (c5Ledger, ⟨0, 0, 0⟩)

theorem stake_duplicate_commitment_fails_witness :
    stake c5Ledger 1 40 3 = .ok (c5AfterStake.1, c5AfterStake.2) ∧
    stake c5AfterStake.1 1 40 3 = .error .CommitmentAlreadyExists :=
  ⟨rfl, stake_duplicate_commitment_fails c5Ledger c5AfterStake.1 1 40 3
    c5AfterStake.2 rfl⟩

/-- C4: the stake/unstake round trip.  A successful `stake(amount, salt)`
followed by a successful `unstake(amount, salt)` by the same caller
returns the caller's staking-asset balance to its pre-stake value, leaves
the commitment `(amount, salt, caller)` absent, burns the minted receipt
tokens (caller balance and total supply return to their pre-stake
values), and returns `totalStaked` to its pre-stake value. -/
theorem stake_unstake_round_trip :
    ∀ (s s1 s2 : ContractState) (caller : Address) (amount salt : Nat)
      (c : Commitment),
      stake s caller amount salt = .ok (s1, c) →
      unstake s1 caller amount salt = .ok s2 →
      s2.assetBalances caller = s.assetBalances caller ∧
      c = ⟨amount, salt, caller⟩ ∧
      c ∉ s2.stakeCommitments ∧
      s2.plsBalances caller = s.plsBalances caller ∧
      s2.plsTotalSupply = s.plsTotalSupply ∧
      s2.totalStaked = s.totalStaked := by
  intro s s1 s2 caller amount salt c hstake hunstake
  obtain ⟨_, hnotmem, hbal, _, _, _, hc, hs1⟩ := stake_ok_elim hstake
  obtain ⟨_, _, _, _, hs2⟩ := unstake_ok_elim hunstake
  subst hs1 hs2 hc
  refine ⟨?_, rfl, ?_, ?_, ?_, ?_⟩
  · simp [Nat.sub_add_cancel hbal]
  · simpa [List.erase_cons_head] using hnotmem
  · simp
  · simp
  · simp

/-- The C4 witness scenario: balances and allowances of 100, stake 40
with salt 3 by caller 1, then unstake it. -/
def c4Ledger : ContractState := initState 1 5 7 (fun _ => 100) (fun _ => 100)

/-- State and commitment after the witness stake. -/
def c4AfterStake : ContractState × Commitment :=
  match stake c4Ledger 1 40 3 with
  | .ok p => p
  | .error _ => (c4Ledger, ⟨0, 0, 0⟩)

/-- State after the witness unstake. -/
def c4AfterUnstake : ContractState :=
  match unstake c4AfterStake.1 1 40 3 with
  | .ok s => s
  | .error _ => c4Ledger

theorem stake_unstake_round_trip_witness :
    stake c4Ledger 1 40 3 = .ok (c4AfterStake.1, c4AfterStake.2) ∧
    unstake c4AfterStake.1 1 40 3 = .ok c4AfterUnstake ∧
    (c4AfterUnstake.assetBalances 1 = c4Ledger.assetBalances 1 ∧
      c4AfterStake.2 = ⟨40, 3, 1⟩ ∧
      c4AfterStake.2 ∉ c4AfterUnstake.stakeCommitments ∧
      c4AfterUnstake.plsBalances 1 = c4Ledger.plsBalances 1 ∧
      c4AfterUnstake.plsTotalSupply = c4Ledger.plsTotalSupply ∧
      c4AfterUnstake.totalStaked = c4Ledger.totalStaked) :=
  ⟨rfl, rfl, stake_unstake_round_trip c4Ledger c4AfterStake.1 c4AfterUnstake
    1 40 3 c4AfterStake.2 rfl rfl⟩

/-! ## Swap-and-pop acts as erasure, up to order

`_removeCommitment` promises only set semantics: the spec notes the
removal "may reorder via swap-and-pop".  The lemma makes that precise:
on a list containing `c`, `swapPopRemove` is a permutation of `erase`. -/

theorem swapPopRemove_perm (l : List Commitment) (c : Commitment) (hc : c ∈ l) :
    List.Perm (swapPopRemove l c) (l.erase c) := by
  induction l with
  | nil => cases hc
  | cons x xs ih =>
    by_cases hx : x = c
    · subst hx
      rcases List.eq_nil_or_concat xs with hnil | ⟨ys, b, hcat⟩
      · subst hnil
        simp [swapPopRemove, firstIdx]
      · rw [List.concat_eq_append] at hcat
        subst hcat
        have hlast : (x :: (ys ++ [b])).getLast? = some b := by
          rw [← List.cons_append]
          exact List.getLast?_concat _
        have hmem : x ∈ x :: (ys ++ [b]) := List.mem_cons_self ..
        have hidx : firstIdx (x :: (ys ++ [b])) x = 0 := by simp [firstIdx]
        have hset : (x :: (ys ++ [b])).set 0 b = b :: (ys ++ [b]) := List.set_cons_zero ..
        have hdrop : (b :: (ys ++ [b])).dropLast = b :: ys := by
          rw [← List.cons_append]
          exact List.dropLast_concat
        rw [swapPopRemove, hlast]
        simp only [hmem, if_pos, hidx, hset, hdrop, List.erase_cons_head]
        exact (List.perm_append_singleton b ys).symm
    · have hcx : c ∈ xs := by
        rcases List.mem_cons.mp hc with h | h
        · exact absurd h.symm hx
        · exact h
      have hxs : xs ≠ [] := List.ne_nil_of_mem hcx
      rcases List.eq_nil_or_concat xs with hnil | ⟨ys, b, hcat⟩
      · exact absurd hnil hxs
      · rw [List.concat_eq_append] at hcat
        subst hcat
        have hlast : (x :: (ys ++ [b])).getLast? = some b := by
          rw [← List.cons_append]
          exact List.getLast?_concat _
        have hlast2 : (ys ++ [b]).getLast? = some b := List.getLast?_concat _
        have hmem : c ∈ x :: (ys ++ [b]) := hc
        have hidx : firstIdx (x :: (ys ++ [b])) c = firstIdx (ys ++ [b]) c + 1 := by
          simp [firstIdx, hx]
        have hsetlen : ((ys ++ [b]).set (firstIdx (ys ++ [b]) c) b).length =
            (ys ++ [b]).length := List.length_set ..
        have hsetne : (ys ++ [b]).set (firstIdx (ys ++ [b]) c) b ≠ [] := by
          intro hcontra
          rw [hcontra] at hsetlen
          simp at hsetlen
        rw [swapPopRemove, hlast]
        simp only [hmem, if_pos, hidx, List.set_cons_succ]
        rw [List.dropLast_cons_of_ne_nil hsetne]
        have herase : (x :: (ys ++ [b])).erase c = x :: (ys ++ [b]).erase c :=
          List.erase_cons_tail (by simpa using hx)
        rw [herase]
        refine List.Perm.cons x ?_
        have hperm := ih hcx
        rw [swapPopRemove, hlast2] at hperm
        simpa [hcx] using hperm

/-! ## Preservation of the bookkeeping invariant -/

/-- The invariant holds in the post-deployment state. -/
theorem inv_initState (deployer : Address) (chainId selfAddr : Nat)
    (bal alw : Address → Nat) :
    Inv (initState deployer chainId selfAddr bal alw) := by
  refine ⟨rfl, List.nodup_nil, fun c a => ?_⟩
  simp [initState]

/-- Every successful operation preserves the bookkeeping invariant. -/
theorem inv_step {s s' : ContractState} (hstep : Step s s') (hinv : Inv s) :
    Inv s' := by
  obtain ⟨hts, hnd, hcount⟩ := hinv
  cases hstep with
  | stake _ caller amount salt c h =>
      obtain ⟨_, hmem, _, _, _, _, _, hs'⟩ := stake_ok_elim h
      subst hs'
      refine ⟨by simp [hts, Nat.add_comm], List.nodup_cons.mpr ⟨hmem, hnd⟩,
        fun x a => ?_⟩
      show List.count x
          (if a = caller then s.userCommitments caller ++ [⟨amount, salt, caller⟩]
           else s.userCommitments a) = _
      by_cases ha : a = caller
      · subst ha
        rw [if_pos rfl, List.count_append, hcount x a]
        by_cases hxc : x = (⟨amount, salt, a⟩ : Commitment)
        · subst hxc
          simp [hmem]
        · have hbeq : ((⟨amount, salt, a⟩ : Commitment) == x) = false :=
            beq_eq_false_iff_ne.mpr fun hcontra => hxc hcontra.symm
          simp [List.count_cons, hbeq, List.mem_cons, hxc]
      · rw [if_neg ha, hcount x a]
        by_cases hxc : x = (⟨amount, salt, caller⟩ : Commitment)
        · subst hxc
          simp [hmem, ha]
        · simp [List.mem_cons, hxc]
  | unstake _ caller amount salt h =>
      obtain ⟨hcmem, _, _, _, hs'⟩ := unstake_ok_elim h
      subst hs'
      have hperm : List.Perm s.stakeCommitments
          ((⟨amount, salt, caller⟩ : Commitment) ::
            s.stakeCommitments.erase ⟨amount, salt, caller⟩) :=
        List.perm_cons_erase hcmem
      refine ⟨?_, hnd.erase _, fun x a => ?_⟩
      · show s.totalStaked - amount =
          ((s.stakeCommitments.erase ⟨amount, salt, caller⟩).map
            Commitment.amount).sum
        have hsum : (s.stakeCommitments.map Commitment.amount).sum =
            amount + ((s.stakeCommitments.erase ⟨amount, salt, caller⟩).map
              Commitment.amount).sum := by
          simpa using (hperm.map Commitment.amount).sum_eq
        rw [hts, hsum]
        omega
      · show List.count x
            (if a = caller then
              swapPopRemove (s.userCommitments caller) ⟨amount, salt, caller⟩
             else s.userCommitments a) = _
        by_cases ha : a = caller
        · subst ha
          have hmemuc : (⟨amount, salt, a⟩ : Commitment) ∈ s.userCommitments a := by
            rw [← List.count_pos_iff]
            rw [hcount ⟨amount, salt, a⟩ a]
            simp [hcmem]
          rw [if_pos rfl,
            (swapPopRemove_perm _ _ hmemuc).count_eq x, List.count_erase,
            hcount x a]
          by_cases hxc : x = (⟨amount, salt, a⟩ : Commitment)
          · subst hxc
            have hxer : (⟨amount, salt, a⟩ : Commitment) ∉
                s.stakeCommitments.erase ⟨amount, salt, a⟩ := fun hcontra =>
              ((hnd.mem_erase_iff.mp hcontra).1 rfl)
            simp [hcmem, hxer]
          · have hbeq : ((⟨amount, salt, a⟩ : Commitment) == x) = false :=
              beq_eq_false_iff_ne.mpr fun hcontra => hxc hcontra.symm
            simp [hbeq, List.mem_erase_of_ne hxc]
        · rw [if_neg ha, hcount x a]
          by_cases hxc : x = (⟨amount, salt, caller⟩ : Commitment)
          · subst hxc
            simp [ha]
          · simp [List.mem_erase_of_ne hxc]
  | claim _ caller amount proofHash signature h =>
      obtain ⟨_, _, _, hs'⟩ := claimRewards_ok_elim h
      subst hs'
      exact ⟨hts, hnd, hcount⟩
  | setOracle _ caller newOracle h =>
      obtain ⟨_, hs'⟩ := setTEEOracle_ok_elim h
      subst hs'
      exact ⟨hts, hnd, hcount⟩
  | approve caller amount =>
      exact ⟨hts, hnd, hcount⟩

/-- C10: the ledger bookkeeping invariant.  In every state reachable from
deployment by successful operations, `totalStaked` equals the sum of the
amounts underlying the commitments currently present in
`stakeCommitments`, and every present commitment appears exactly once, in
exactly its owner's `userCommitments` array (a commitment occurs in a
user's array exactly once when present and owned by that user, never
otherwise); `claimRewards` changes neither `totalStaked` nor the
commitment sets (its preservation case below touches no such field). -/
theorem ledger_bookkeeping_invariant :
    ∀ (deployer : Address) (chainId selfAddr : Nat) (bal alw : Address → Nat)
      (s : ContractState),
      Reachable (initState deployer chainId selfAddr bal alw) s → Inv s := by
  intro deployer chainId selfAddr bal alw s hreach
  induction hreach with
  | refl => exact inv_initState deployer chainId selfAddr bal alw
  | tail _ hstep ih => exact inv_step hstep ih

/-- The C10 witness scenario: deployment followed by one successful
stake. -/
def c10Ledger : ContractState := initState 9 5 7 (fun _ => 100) (fun _ => 100)

/-- State and commitment after the witness stake. -/
def c10AfterStake : ContractState × Commitment :=
  match stake c10Ledger 1 40 3 with
  | .ok p => p
  | .error _ => (c10Ledger, ⟨0, 0, 0⟩)

theorem ledger_bookkeeping_invariant_witness :
    Reachable c10Ledger c10AfterStake.1 ∧ Inv c10AfterStake.1 :=
  have hreach : Reachable c10Ledger c10AfterStake.1 :=
    Relation.ReflTransGen.single
      (Step.stake c10Ledger c10AfterStake.1 1 40 3 c10AfterStake.2 rfl)
  ⟨hreach, ledger_bookkeeping_invariant 9 5 7 (fun _ => 100) (fun _ => 100)
    c10AfterStake.1 hreach⟩

/-! ## Monotone facts along steps, for the replay-protection claims -/

/-- No operation ever removes a proof hash from the claimed set. -/
theorem step_claimed_mono {s s' : ContractState} (hstep : Step s s') :
    ∀ p, p ∈ s.claimedRewards → p ∈ s'.claimedRewards := by
  intro p hp
  cases hstep with
  | stake _ caller amount salt c h =>
      obtain ⟨_, _, _, _, _, _, _, hs'⟩ := stake_ok_elim h
      subst hs'; exact hp
  | unstake _ caller amount salt h =>
      obtain ⟨_, _, _, _, hs'⟩ := unstake_ok_elim h
      subst hs'; exact hp
  | claim _ caller amount proofHash signature h =>
      obtain ⟨_, _, _, hs'⟩ := claimRewards_ok_elim h
      subst hs'; exact List.mem_cons_of_mem _ hp
  | setOracle _ caller newOracle h =>
      obtain ⟨_, hs'⟩ := setTEEOracle_ok_elim h
      subst hs'; exact hp
  | approve caller amount => exact hp

/-- Claimed proof hashes persist along any sequence of operations. -/
theorem reachable_claimed_mono {s s' : ContractState}
    (hreach : Reachable s s') : ∀ p, p ∈ s.claimedRewards → p ∈ s'.claimedRewards := by
  induction hreach with
  | refl => exact fun _ hp => hp
  | tail _ hstep ih => exact fun p hp => step_claimed_mono hstep p (ih p hp)

/-- C2: a given `proofHash` is honored at most once.  (i) In any state
whose claimed set contains `p`, every `claimRewards` with `p` reverts with
`AlreadyClaimed` (a revert produces no new state, so the state is
unchanged).  (ii) After any successful claim of `p`, in every later
reachable state a claim of the same `p` reverts with `AlreadyClaimed`.
(iii) A claim carrying a signature by the configured oracle over the
claimant's current nonce (and this call's amount, proof hash, chain id,
ledger address) with a fresh `p` succeeds, producing exactly the
marked-claimed, nonce-bumped, minted state — so with (ii), it succeeds
exactly once. -/
theorem proofHash_honored_at_most_once :
    (∀ (s : ContractState) (caller : Address) (amount p : Nat) (sg : Sig),
        p ∈ s.claimedRewards →
        claimRewards s caller amount p sg = .error .AlreadyClaimed) ∧
    (∀ (s s1 s2 : ContractState) (caller : Address) (amount p : Nat) (sg : Sig),
        claimRewards s caller amount p sg = .ok s1 →
        Reachable s1 s2 →
        ∀ (caller2 : Address) (amount2 : Nat) (sg2 : Sig),
          claimRewards s2 caller2 amount2 p sg2 = .error .AlreadyClaimed) ∧
    (∀ (s : ContractState) (caller : Address) (amount p : Nat),
        p ∉ s.claimedRewards →
        s.plsTotalSupply + amount < uint256Bound →
        claimRewards s caller amount p
          (Sig.made s.teeOracle
            ⟨caller, amount, p, s.nonces caller, s.chainId, s.selfAddr⟩) =
          .ok { s with
              claimedRewards := p :: s.claimedRewards
              nonces := fun a =>
                if a = caller then s.nonces caller + 1 else s.nonces a
              plsBalances := fun a =>
                if a = caller then s.plsBalances caller + amount else s.plsBalances a
              plsTotalSupply := s.plsTotalSupply + amount }) := by
  refine ⟨?_, ?_, ?_⟩
  · intro s caller amount p sg hp
    simp [claimRewards, hp]
  · intro s s1 s2 caller amount p sg hok hreach caller2 amount2 sg2
    obtain ⟨_, _, _, hs1⟩ := claimRewards_ok_elim hok
    have hp1 : p ∈ s1.claimedRewards := by
      subst hs1; exact List.mem_cons_self ..
    have hp2 : p ∈ s2.claimedRewards := reachable_claimed_mono hreach p hp1
    simp [claimRewards, hp2]
  · intro s caller amount p hp hsupply
    simp [claimRewards, hp, recoverSigner, hsupply]

/-- Witness ledger for C2: one already-claimed proof hash `3`, oracle
configured at address `6`. -/
def c2Ledger : ContractState :=
  { initState 2 5 7 (fun _ => 0) (fun _ => 0) with
      teeOracle := 6
      claimedRewards := [3] }

theorem proofHash_honored_at_most_once_witness :
    ((3 : Nat) ∈ c2Ledger.claimedRewards ∧
      claimRewards c2Ledger 1 10 3 (Sig.garbage 0) = .error .AlreadyClaimed) ∧
    ((4 : Nat) ∉ c2Ledger.claimedRewards ∧
      c2Ledger.plsTotalSupply + 10 < uint256Bound ∧
      claimRewards c2Ledger 1 10 4
          (Sig.made c2Ledger.teeOracle
            ⟨1, 10, 4, c2Ledger.nonces 1, c2Ledger.chainId, c2Ledger.selfAddr⟩) =
        .ok { c2Ledger with
            claimedRewards := 4 :: c2Ledger.claimedRewards
            nonces := fun a =>
              if a = 1 then c2Ledger.nonces 1 + 1 else c2Ledger.nonces a
            plsBalances := fun a =>
              if a = 1 then c2Ledger.plsBalances 1 + 10 else c2Ledger.plsBalances a
            plsTotalSupply := c2Ledger.plsTotalSupply + 10 }) :=
  ⟨⟨by decide,
      proofHash_honored_at_most_once.1 c2Ledger 1 10 3 (Sig.garbage 0) (by decide)⟩,
    by decide, by decide,
    proofHash_honored_at_most_once.2.2 c2Ledger 1 10 4 (by decide) (by decide)⟩

/-- C3: the per-claimant claim protocol is a strictly sequential counter.
(i) A successful claim bumps exactly the caller's nonce by exactly `1`,
leaving every other claimant's nonce unchanged.  (ii) A fresh-proof claim
whose signature was produced (by any signer) over any nonce other than
the caller's current one reverts with `InvalidSignature`: the recovered
address is the junk value a mismatched recovery yields, which lies
outside the address space and so cannot equal the configured oracle
address (hypothesis: the oracle slot holds a real, 160-bit value).
(iii) No operation ever decreases any claimant's nonce. -/
theorem nonce_strictly_sequential :
    (∀ (s s' : ContractState) (caller : Address) (amount p : Nat) (sg : Sig),
        claimRewards s caller amount p sg = .ok s' →
        s'.nonces caller = s.nonces caller + 1 ∧
        ∀ a, a ≠ caller → s'.nonces a = s.nonces a) ∧
    (∀ (s : ContractState) (caller signer : Address) (amount p n : Nat),
        s.teeOracle < 2 ^ 160 →
        p ∉ s.claimedRewards →
        n ≠ s.nonces caller →
        claimRewards s caller amount p
            (Sig.made signer ⟨caller, amount, p, n, s.chainId, s.selfAddr⟩) =
          .error .InvalidSignature) ∧
    (∀ (s s' : ContractState), Step s s' → ∀ a, s.nonces a ≤ s'.nonces a) := by
  refine ⟨?_, ?_, ?_⟩
  · intro s s' caller amount p sg hok
    obtain ⟨_, _, _, hs'⟩ := claimRewards_ok_elim hok
    subst hs'
    constructor
    · show (if caller = caller then _ else _) = _
      rw [if_pos rfl]
    · intro a ha
      show (if a = caller then _ else _) = _
      rw [if_neg ha]
  · intro s caller signer amount p n horacle hp hn
    have hmsg : (⟨caller, amount, p, n, s.chainId, s.selfAddr⟩ : ClaimMsg) ≠
        ⟨caller, amount, p, s.nonces caller, s.chainId, s.selfAddr⟩ := by
      intro hcontra
      exact hn (congrArg ClaimMsg.nonce hcontra)
    have hrec : recoverSigner
        ⟨caller, amount, p, s.nonces caller, s.chainId, s.selfAddr⟩
        (Sig.made signer ⟨caller, amount, p, n, s.chainId, s.selfAddr⟩) =
        mismatchAddress signer
          ⟨caller, amount, p, n, s.chainId, s.selfAddr⟩
          ⟨caller, amount, p, s.nonces caller, s.chainId, s.selfAddr⟩ := by
      simp [recoverSigner, hmsg]
    have hne : mismatchAddress signer
        (⟨caller, amount, p, n, s.chainId, s.selfAddr⟩ : ClaimMsg)
        (⟨caller, amount, p, s.nonces caller, s.chainId, s.selfAddr⟩ : ClaimMsg) ≠
        s.teeOracle := by
      have : s.teeOracle < 2 ^ 160 + signer :=
        lt_of_lt_of_le horacle (Nat.le_add_right _ _)
      exact fun hcontra => absurd (hcontra ▸ this) (lt_irrefl _)
    simp [claimRewards, hp, hrec, hne]
  · intro s s' hstep a
    cases hstep with
    | stake _ caller amount salt c h =>
        obtain ⟨_, _, _, _, _, _, _, hs'⟩ := stake_ok_elim h
        subst hs'; exact le_refl _
    | unstake _ caller amount salt h =>
        obtain ⟨_, _, _, _, hs'⟩ := unstake_ok_elim h
        subst hs'; exact le_refl _
    | claim _ caller amount proofHash signature h =>
        obtain ⟨_, _, _, hs'⟩ := claimRewards_ok_elim h
        subst hs'
        show s.nonces a ≤ if a = caller then s.nonces caller + 1 else s.nonces a
        by_cases ha : a = caller
        · subst ha; rw [if_pos rfl]; exact Nat.le_succ _
        · rw [if_neg ha]
    | setOracle _ caller newOracle h =>
        obtain ⟨_, hs'⟩ := setTEEOracle_ok_elim h
        subst hs'; exact le_refl _
    | approve caller amount => exact le_refl _

/-- Witness ledger for C3: oracle configured at address `6`, all nonces
zero. -/
def c3Ledger : ContractState :=
  { initState 2 5 7 (fun _ => 0) (fun _ => 0) with teeOracle := 6 }

theorem nonce_strictly_sequential_witness :
    c3Ledger.teeOracle < 2 ^ 160 ∧ (4 : Nat) ∉ c3Ledger.claimedRewards ∧
    (1 : Nat) ≠ c3Ledger.nonces 1 ∧
    claimRewards c3Ledger 1 10 4
        (Sig.made 6 ⟨1, 10, 4, 1, c3Ledger.chainId, c3Ledger.selfAddr⟩) =
      .error .InvalidSignature :=
  ⟨by decide, by decide, by decide,
    nonce_strictly_sequential.2.1 c3Ledger 1 6 10 4 1 (by decide) (by decide)
      (by decide)⟩

/-- C8 (refuted — the code is buggy): a failure on one element of the
bulk reward computation CAN abort the others.  On a `null` array element,
`calculateRewards` throws while destructuring, and the `catch` handler
then throws again evaluating `stakeData.userAddress` on `null`; that
second exception is uncaught, escapes the `map`, and aborts the whole
bulk action — no per-element results and no summary are produced.
Evaluated here at the concrete failing input: a list holding one
well-formed entry (which alone computes reward `52000`) and one `null`
entry; the whole call returns the uncaught error instead of reporting the
well-formed entry's success. -/
theorem bulk_null_entry_aborts_batch :
    bulkCalculateRewards
        [.entry ⟨1000000, 0, some 5⟩, .nullEntry] 31536000 520 =
      .error "Cannot read properties of null" ∧
    processBulkEntry (.entry ⟨1000000, 0, some 5⟩) 31536000 520 =
      .ok (.success (some 5) 52000) :=
  ⟨rfl, rfl⟩

/-- C9 counterexample: `verifyCommitmentInTEE` substitutes its fallback
verdict with no indication.  With the iApp configured, a failed remote
task yields the bare boolean `true` — bit-identical to a genuine remote
"valid" verdict, and identical to the unconfigured-skip result; the
returned value carries no flag (unlike `isMock` on the reward path), so
the caller cannot tell the fallback was used. -/
theorem verify_fallback_indistinguishable :
    verifyCommitmentInTEE true Remote.failed =
      verifyCommitmentInTEE true (Remote.ok true) ∧
    verifyCommitmentInTEE true Remote.failed = true ∧
    verifyCommitmentInTEE false Remote.failed = true :=
  ⟨rfl, rfl, rfl⟩

/-- C9 (amended): on the reward-computation operations the substitution
IS explicit and observable — whenever `calculateRewardsInTEE` or
`bulkCalculateRewardsInTEE` returns a result produced by the local mock
(iApp unconfigured, or remote failure), that result is flagged
`isMock = true`, and a result produced by a successful remote task is
flagged `isMock = false`.  (The verification and aggregate operations
return fallback results unflagged — the counterexample above.) -/
theorem reward_fallbacks_flagged :
    (∀ (frc : Bool) (remote : Remote Int) (d : FStakeData) (now : Int)
        (apy : Nat) (res : TEERewardResult),
        calculateRewardsInTEE frc false remote d now apy = .ok res →
        res.isMock = true) ∧
    (∀ (frc : Bool) (d : FStakeData) (now : Int) (apy : Nat)
        (res : TEERewardResult),
        calculateRewardsInTEE frc true Remote.failed d now apy = .ok res →
        res.isMock = true) ∧
    (∀ (frc : Bool) (d : FStakeData) (now : Int) (apy : Nat) (r : Int),
        calculateRewardsInTEE frc true (Remote.ok r) d now apy =
          .ok { rewards := r, isMock := false }) ∧
    (∀ (frc : Bool) (remote : Remote BulkOutput) (ds : List FStakeData)
        (now : Int) (apy : Nat) (res : TEEBulkResult),
        bulkCalculateRewardsInTEE frc false remote ds now apy = .ok res →
        res.isMock = true) ∧
    (∀ (frc : Bool) (ds : List FStakeData) (now : Int) (apy : Nat)
        (res : TEEBulkResult),
        bulkCalculateRewardsInTEE frc true Remote.failed ds now apy = .ok res →
        res.isMock = true) ∧
    (∀ (frc : Bool) (out : BulkOutput) (ds : List FStakeData) (now : Int)
        (apy : Nat),
        bulkCalculateRewardsInTEE frc true (Remote.ok out) ds now apy =
          .ok { output := out, isMock := false }) := by
  refine ⟨?_, ?_, ?_, ?_, ?_, ?_⟩
  · intro frc remote d now apy res h
    cases frc
    · simp [calculateRewardsInTEE] at h
      simp only [← h, mockTEEComputation]
    · simp [calculateRewardsInTEE] at h
  · intro frc d now apy res h
    cases frc
    · simp [calculateRewardsInTEE] at h
      simp only [← h, mockTEEComputation]
    · simp [calculateRewardsInTEE] at h
  · intro frc d now apy r
    cases frc <;> simp [calculateRewardsInTEE]
  · intro frc remote ds now apy res h
    cases frc
    · simp [bulkCalculateRewardsInTEE] at h
      simp only [← h, mockBulkTEEComputation]
    · simp [bulkCalculateRewardsInTEE] at h
  · intro frc ds now apy res h
    cases frc
    · simp [bulkCalculateRewardsInTEE] at h
      simp only [← h, mockBulkTEEComputation]
    · simp [bulkCalculateRewardsInTEE] at h
  · intro frc out ds now apy
    cases frc <;> simp [bulkCalculateRewardsInTEE]

theorem reward_fallbacks_flagged_witness :
    calculateRewardsInTEE false true Remote.failed ⟨1000000, 0⟩ 31536000 520 =
      .ok (mockTEEComputation ⟨1000000, 0⟩ 31536000 520) ∧
    (mockTEEComputation ⟨1000000, 0⟩ 31536000 520).isMock = true :=
  ⟨rfl, reward_fallbacks_flagged.2.1 false ⟨1000000, 0⟩ 31536000 520
    (mockTEEComputation ⟨1000000, 0⟩ 31536000 520) rfl⟩

end PLSVerify
